import Mathlib

/-
Verification of the storjshare-cli farmer daemon (src/bin/farmer.js).

The development shallowly embeds the three core pieces of the program:

  * getDirectorySize (farmer.js lines 145-172): the recursive, callback
    style directory-usage aggregator;
  * encrypt / decrypt (farmer.js lines 174-196): the key vault built from
    AES-256-CBC (node crypto.createCipher) and a base58 text encoding;
  * report / send (farmer.js lines 198-287): the telemetry tick, i.e. the
    bandwidth-cache freshness decision, the speed-test branch, the report
    construction and the rescheduling of the next tick.

Machine numbers are modelled as Nat / Int (all quantities involved are
integers: byte counts, millisecond timestamps); fallible steps return
Option; the JavaScript single-threaded control flow of one tick is
modelled as the ordered list of observable events the tick emits.
-/

namespace StorjFarmer

/-! ## Filesystem model and getDirectorySize (farmer.js lines 145-172)

A node of the directory tree is classified by how the two system calls
used by the walk behave on it: fs.stat may fail (statErr), may succeed
on a non-directory (file), and on a directory fs.readdir may fail
(unreadable) or yield the children (dir).  Sizes are the stat st_size
values. -/

mutual
inductive FSNode
  | file (size : Nat)
  | statErr
  | unreadable (size : Nat)
  | dir (size : Nat) (entries : FSEntries)
inductive FSEntries
  | nil
  | cons (e : FSNode) (es : FSEntries)
end

/-- Addition of JavaScript numbers where none models the poisoned values
undefined / NaN: adding undefined to a number yields NaN, and NaN is
absorbing. -/
def optAdd : Option Nat → Option Nat → Option Nat
  | some a, some b => some (a + b)
  | _, _ => none

mutual
/-- Model of getDirectorySize (farmer.js lines 145-172).  The result is
the pair (err, total) handed to the callback: err is whether a truthy
error value was passed, total is the size argument (none models the
undefined size passed by the readdir-failure branch, line 159, and any
NaN it poisons in an ancestor's accumulator).
Line by line: a stat failure calls back (err, 0) (line 148); a stat
success on a non-directory calls back (null, 0) (line 147-148, so
regular files contribute 0 to the sum); a readdir failure calls back
(err) with no size (line 159); a readable directory starts the
accumulator at its own stat size (line 151) and folds the children. -/
def getDirectorySize : FSNode → Bool × Option Nat
  | .file _ => (false, some 0)
  | .statErr => (true, some 0)
  | .unreadable _ => (true, none)
  | .dir size entries => gdsChildren (some size) entries

/-- Model of the async.each loop over the directory listing (farmer.js
lines 162-169): each child is measured, its size is added to the running
total (line 166), and the child's error is passed to next (line 167);
async.each stops and calls done(err) at the first error, and done passes
the accumulated total along with the error (lines 153-155). -/
def gdsChildren : Option Nat → FSEntries → Bool × Option Nat
  | total, .nil => (false, total)
  | total, .cons e es =>
    let r := getDirectorySize e
    let t := optAdd total r.2
    if r.1 then (true, t) else gdsChildren t es
end

mutual
/-- Specification predicate: the tree contains a node on which fs.stat
or fs.readdir fails (the root included). -/
def hasErr : FSNode → Bool
  | .file _ => false
  | .statErr => true
  | .unreadable _ => true
  | .dir _ es => hasErrE es
/-- Specification predicate hasErr on a directory listing. -/
def hasErrE : FSEntries → Bool
  | .nil => false
  | .cons e es => hasErr e || hasErrE es
end

/-! ## Telemetry tick model (farmer.js lines 198-287) -/

/-- Unit suffix of the configured capacity (config.storage.unit); other
covers any string that is none of MB, GB, TB, on which the switch at
farmer.js lines 213-225 takes the default NOOP branch. -/
inductive StorageUnit
  | MB
  | GB
  | TB
  | other
deriving DecidableEq

/-- Storage section of the configuration file. -/
structure StorageConfig where
  path : String
  size : Nat
  unit : StorageUnit
deriving DecidableEq

/-- Configuration fields consumed by report / send: config.storage and
config.address (the payment address, farmer.js line 237). -/
structure Config where
  storage : StorageConfig
  address : String
deriving DecidableEq

/-- Parsed content of the speed-test cache file: a JSON object with
upload, download and an ms-epoch timestamp (farmer.js lines 275-279). -/
structure BandwidthSample where
  upload : Int
  download : Int
  timestamp : Int
deriving DecidableEq

/-- Result delivered by the external speed-test transport on success
(farmer.js line 266: result.upload, result.download). -/
structure SpeedResult where
  upload : Int
  download : Int
deriving DecidableEq

/-- Classification of the cache file read at farmer.js lines 199-201,
by the branch of report it drives: the file may be absent (existsSync
false, bandwidth = null), present with empty content (the empty string
is falsy, so line 255 treats it like null), present but not parseable
as JSON (JSON.parse at line 258 throws), or parseable into a sample. -/
inductive CacheState
  | missing
  | empty
  | unparsable
  | parsed (s : BandwidthSample)
deriving DecidableEq

/-- Freshness window constant, farmer.js line 203:
var hours25 = 60 * 60 * 25 * 1000 (milliseconds). -/
def hours25 : Int := 60 * 60 * 25 * 1000

/-- Speed-test endpoint constant, farmer.js line 21. -/
def SPEEDTEST_URL : String := "ws://speedofme.storj.io"

/-- Outcome of the needstest computation at farmer.js lines 255-263;
none models the JSON.parse exception on an unparsable cache file, and
some b the final value of the needstest flag.  For a parsed sample the
test at line 260 is strict: (now - timestamp) > hours25. -/
def needsTest (cache : CacheState) (now : Int) : Option Bool :=
  match cache with
  | .missing => some true
  | .empty => some true
  | .unparsable => none
  | .parsed s => some (decide (now - s.timestamp > hours25))

/-- Sample available in the bandwidth variable when send runs without a
fresh speed test: the parsed cache content, or none when the variable
is still null (farmer.js lines 199-201, 258). -/
def cacheSample : CacheState → Option BandwidthSample
  | .parsed s => some s
  | _ => none

/-- Conversion of the configured capacity into bytes, the switch at
farmer.js lines 211-225: MB, GB, TB multiply by Math.pow(1024, 2), (3),
(4); any other unit leaves Number(config.storage.size) unchanged. -/
def totalSpaceBytes (size : Nat) : StorageUnit → Nat
  | .MB => size * 1024 ^ 2
  | .GB => size * 1024 ^ 3
  | .TB => size * 1024 ^ 4
  | .other => size

/-- Shape of the report object built at farmer.js lines 227-238.  The
used field is the size the measurement callback received (an Option so
that the model never invents a number the code does not compute). -/
structure ReportStorage where
  free : Nat
  used : Option Nat
deriving DecidableEq

/-- Bandwidth half of the report object (farmer.js lines 232-235). -/
structure ReportBandwidth where
  upload : Int
  download : Int
deriving DecidableEq

/-- Telemetry report object (farmer.js lines 227-238). -/
structure TelemetryReport where
  storage : ReportStorage
  bandwidth : ReportBandwidth
  contact : String
  payment : String
deriving DecidableEq

/-- Construction of the report object, farmer.js lines 227-238: free is
the raw config.storage.size (line 229), used is the measured size (line
230), and each bandwidth rate is Number(bandwidth.x) when the bandwidth
variable is truthy and 0 otherwise (the ternaries at lines 233-234). -/
def buildReport (cfg : Config) (size : Option Nat) (bw : Option BandwidthSample)
    (contact : String) : TelemetryReport :=
  { storage := { free := cfg.storage.size, used := size }
    bandwidth := { upload := (bw.map BandwidthSample.upload).getD 0
                   download := (bw.map BandwidthSample.download).getD 0 }
    contact := contact
    payment := cfg.address }

/-- Observable events of one invocation of report, in the order the
JavaScript runtime performs them. -/
inductive Event
  | speedTestStart
  | speedTestErrorLog
  | cacheWrite (s : BandwidthSample)
  | parseThrow
  | measureStart
  | scheduleNext
  | measureDone (err : Bool) (size : Option Nat)
  | deliver (r : TelemetryReport)
  | outcomeLog (isError : Bool)
deriving DecidableEq

/-- Event trace of send() (farmer.js lines 205-253).  The body of send
synchronously initiates getDirectorySize (line 206) and then registers
the 5-minute setTimeout for the next tick (lines 250-252); only after
that does the measurement callback run: on error it returns without a
report (lines 207-209), otherwise it computes the dead totalSpace
value, builds the report and hands it to reporter.send (line 240),
whose callback writes one structured log line (lines 241-247). -/
def sendTrace (cfg : Config) (fsys : FSNode) (bw : Option BandwidthSample)
    (contact : String) (deliverOk : Bool) : List Event :=
  let r := getDirectorySize fsys
  let _totalSpace := totalSpaceBytes cfg.storage.size cfg.storage.unit
  [Event.measureStart, Event.scheduleNext, Event.measureDone r.1 r.2] ++
    (if r.1 then []
     else [Event.deliver (buildReport cfg r.2 bw contact),
           Event.outcomeLog (!deliverOk)])

/-- Event trace of one invocation of report (farmer.js lines 198-287).
The cache file is read and the needstest flag computed (lines 199-263,
an unparsable file makes JSON.parse throw and the tick die with an
uncaught exception); if a test is needed the speed-test transport runs
(line 266): on failure it writes one error log line and returns without
calling send (lines 267-273), on success it writes the fresh sample to
the cache file and calls send (lines 275-282); otherwise send runs
directly with the cached sample (line 285).  The test parameter is the
outcome of the external speed-test transport, deliverOk the outcome of
the external reporter.send transport, contact the farmer._contact
value, and now the current ms-epoch time. -/
def reportTrace (cache : CacheState) (now : Int) (test : Except Unit SpeedResult)
    (cfg : Config) (fsys : FSNode) (contact : String) (deliverOk : Bool) :
    List Event :=
  match needsTest cache now with
  | none => [Event.parseThrow]
  | some needstest =>
    if needstest && (SPEEDTEST_URL != "") then
      Event.speedTestStart ::
        (match test with
         | .error _ => [Event.speedTestErrorLog]
         | .ok res =>
             let bw : BandwidthSample :=
               { upload := res.upload, download := res.download, timestamp := now }
             Event.cacheWrite bw :: sendTrace cfg fsys (some bw) contact deliverOk)
    else
      sendTrace cfg fsys (cacheSample cache) contact deliverOk

/-- Boolean test for a delivery event, used to state that a tick made
no call to the delivery transport. -/
def isDeliver : Event → Bool
  | .deliver _ => true
  | _ => false

/-- Sample configuration used for concrete evaluations: a 2 GB share. -/
def cfgX : Config :=
  { storage := { path := "/data", size := 2, unit := StorageUnit.GB }
    address := "payaddr" }

/-! ## KeyVault model: encrypt / decrypt (farmer.js lines 174-196)

The two functions compose three external primitives: the AES-256-CBC
block cipher keyed through crypto.createCipher's password-based key
derivation, PKCS#7 padding applied and checked by update/final, and the
bs58 text codec.  The CBC mode, the padding and the base58 codec are
well-specified algorithms and are modelled concretely on byte lists
(bytes are Nat values below 256, plaintext strings are their utf8
bytes); the AES block permutation and the password-to-key derivation
are external to the repository, so they enter as parameters: a family
Ek / Dk of block transforms indexed by the password (AES under the
derived key) and a derived initialisation vector ivd. -/

/-- Alphabet of the bs58 dependency (the Bitcoin base58 alphabet). -/
def base58Alphabet : List Char :=
  ['1', '2', '3', '4', '5', '6', '7', '8', '9',
   'A', 'B', 'C', 'D', 'E', 'F', 'G', 'H', 'J', 'K', 'L', 'M', 'N',
   'P', 'Q', 'R', 'S', 'T', 'U', 'V', 'W', 'X', 'Y', 'Z',
   'a', 'b', 'c', 'd', 'e', 'f', 'g', 'h', 'i', 'j', 'k', 'm', 'n',
   'o', 'p', 'q', 'r', 's', 't', 'u', 'v', 'w', 'x', 'y', 'z']

/-- Character of one base-58 digit. -/
def b58EncodeDigit (d : Nat) : Char := base58Alphabet.getD d '?'

/-- Digit value of one character; none for a character outside the
alphabet (on which the bs58 decoder throws). -/
def b58DecodeDigit (c : Char) : Option Nat :=
  let i := base58Alphabet.indexOf c
  if i < base58Alphabet.length then some i else none

/-- Base58 encoding of a byte buffer as the bs58 library computes it:
one alphabet[0] character per leading zero byte, followed by the
big-endian base-58 digits of the buffer read as a big-endian base-256
number. -/
def base58encode (bs : List Nat) : List Char :=
  List.replicate (bs.takeWhile (· == 0)).length '1' ++
    ((Nat.digits 58 (Nat.ofDigits 256 bs.reverse)).reverse.map b58EncodeDigit)

/-- Digit values of a character string; none as soon as one character
is outside the alphabet. -/
def decodeDigits : List Char → Option (List Nat)
  | [] => some []
  | c :: cs =>
    match b58DecodeDigit c, decodeDigits cs with
    | some d, some ds => some (d :: ds)
    | _, _ => none

/-- Base58 decoding, inverse of base58encode: fails on a character
outside the alphabet, otherwise emits one zero byte per leading
alphabet[0] character followed by the big-endian base-256 bytes of the
value of the digit string. -/
def base58decode (s : List Char) : Option (List Nat) :=
  (decodeDigits s).map fun ds =>
    List.replicate (ds.takeWhile (· == 0)).length 0 ++
      (Nat.digits 256 (Nat.ofDigits 58 ds.reverse)).reverse

/-- PKCS#7 padding appended by cipher.final for the aes-256-cbc mode of
crypto.createCipher: with r = 16 - (length mod 16), a value between 1
and 16, r bytes of value r are appended. -/
def pkcs7pad (bs : List Nat) : List Nat :=
  bs ++ List.replicate (16 - bs.length % 16) (16 - bs.length % 16)

/-- PKCS#7 padding check and removal performed by decipher.final: the
last byte r must lie between 1 and 16 and the last r bytes must all
equal r; otherwise final throws (none). -/
def pkcs7unpad (bs : List Nat) : Option (List Nat) :=
  match bs.getLast? with
  | none => none
  | some r =>
    if 1 ≤ r ∧ r ≤ 16 ∧ r ≤ bs.length ∧
        ∀ x ∈ bs.drop (bs.length - r), x = r then
      some (bs.take (bs.length - r))
    else none

/-- Split of a buffer into the 16-byte cipher blocks. -/
def chunk16 : List Nat → List (List Nat)
  | [] => []
  | x :: xs => ((x :: xs).take 16) :: chunk16 ((x :: xs).drop 16)
termination_by l => l.length
decreasing_by simp; omega

/-- Bytewise exclusive or of two equal-length buffers. -/
def xorBytes (a b : List Nat) : List Nat := List.zipWith (· ^^^ ·) a b

/-- CBC encryption of a list of plaintext blocks under the block
transform E, chaining from the initialisation vector iv. -/
def cbcEncryptBlocks (E : List Nat → List Nat) :
    List Nat → List (List Nat) → List (List Nat)
  | _, [] => []
  | iv, p :: ps =>
    let c := E (xorBytes p iv)
    c :: cbcEncryptBlocks E c ps

/-- CBC decryption of a list of cipher blocks under the block transform
D, chaining from the initialisation vector iv. -/
def cbcDecryptBlocks (D : List Nat → List Nat) :
    List Nat → List (List Nat) → List (List Nat)
  | _, [] => []
  | iv, c :: cs => xorBytes (D c) iv :: cbcDecryptBlocks D c cs

/-- Model of encrypt (farmer.js lines 174-184): the utf8 bytes of the
plaintext are PKCS#7 padded and CBC encrypted (update and final yield
the cipher blocks, concatenated by the Buffer copies at lines 178-181)
and the resulting buffer is base58 encoded (line 183).  Ek and ivd are
the password-indexed AES-256 block encryption and initialisation
vector that crypto.createCipher derives from the password. -/
def encrypt (Ek : String → List Nat → List Nat) (ivd : String → List Nat)
    (password : String) (str : List Nat) : String :=
  ⟨base58encode
    ((cbcEncryptBlocks (Ek password) (ivd password)
        (chunk16 (pkcs7pad str))).flatten)⟩

/-- Model of decrypt (farmer.js lines 186-196): base58 decode (line
188, the library throws on malformed input), CBC decrypt with the
block decryption Dk derived from the password, where decipher.final
throws unless the ciphertext length is a positive multiple of the
block size and the PKCS#7 padding verifies. -/
def decrypt (Dk : String → List Nat → List Nat) (ivd : String → List Nat)
    (password : String) (s : String) : Option (List Nat) :=
  match base58decode s.data with
  | none => none
  | some ct =>
    if ct.length % 16 = 0 ∧ ct.length ≠ 0 then
      pkcs7unpad ((cbcDecryptBlocks (Dk password) (ivd password)
          (chunk16 ct)).flatten)
    else none

/-! ## Helper lemmas about getDirectorySize -/

mutual
/-- Helper: the error component of the walk is exactly the presence of
an erring node anywhere in the tree. -/
theorem gds_err : ∀ f : FSNode, (getDirectorySize f).1 = hasErr f
  | .file _ => rfl
  | .statErr => rfl
  | .unreadable _ => rfl
  | .dir sz es => by
      simpa [getDirectorySize, hasErr] using gdsChildren_err (some sz) es

/-- Helper: the error component of the child fold is exactly the
presence of an erring node among the children's subtrees. -/
theorem gdsChildren_err : ∀ (total : Option Nat) (es : FSEntries),
    (gdsChildren total es).1 = hasErrE es
  | _, .nil => rfl
  | total, .cons e es => by
      have h1 := gds_err e
      have h2 := gdsChildren_err (optAdd total (getDirectorySize e).2) es
      by_cases h : (getDirectorySize e).1 = true
      · simp [gdsChildren, h, hasErrE, h1.symm.trans h]
      · simp only [Bool.not_eq_true] at h
        simp [gdsChildren, h, hasErrE, h1 ▸ h, h2]
end

/-! ## Helper lemmas about the tick traces -/

theorem speedtest_url_nonempty : (SPEEDTEST_URL != "") = true := by decide

/-- Helper: send() is literally the three synchronous events followed by
the asynchronous measurement-callback part. -/
theorem sendTrace_shape (cfg : Config) (fsys : FSNode) (bw : Option BandwidthSample)
    (c : String) (ok : Bool) :
    sendTrace cfg fsys bw c ok =
      Event.measureStart :: Event.scheduleNext ::
        Event.measureDone (getDirectorySize fsys).1 (getDirectorySize fsys).2 ::
          (if (getDirectorySize fsys).1 then []
           else [Event.deliver (buildReport cfg (getDirectorySize fsys).2 bw c),
                 Event.outcomeLog (!ok)]) := rfl

theorem scheduleNext_mem_sendTrace (cfg : Config) (fsys : FSNode)
    (bw : Option BandwidthSample) (c : String) (ok : Bool) :
    Event.scheduleNext ∈ sendTrace cfg fsys bw c ok := by
  rw [sendTrace_shape]; simp

theorem speedTestStart_not_mem_sendTrace (cfg : Config) (fsys : FSNode)
    (bw : Option BandwidthSample) (c : String) (ok : Bool) :
    Event.speedTestStart ∉ sendTrace cfg fsys bw c ok := by
  rw [sendTrace_shape]
  by_cases h : (getDirectorySize fsys).1 <;> simp [h]

theorem deliver_mem_sendTrace {cfg : Config} {fsys : FSNode}
    {bw : Option BandwidthSample} {c : String} {ok : Bool} {r : TelemetryReport} :
    Event.deliver r ∈ sendTrace cfg fsys bw c ok →
    r = buildReport cfg (getDirectorySize fsys).2 bw c := by
  rw [sendTrace_shape]
  by_cases h : (getDirectorySize fsys).1 <;> simp [h]

/-- Helper: send() always registers the next-tick timer as its second
synchronous step, whatever the measurement then does. -/
theorem sendTrace_decomp (cfg : Config) (fsys : FSNode)
    (bw : Option BandwidthSample) (c : String) (ok : Bool) :
    ∃ tail, sendTrace cfg fsys bw c ok =
      Event.measureStart :: Event.scheduleNext ::
        Event.measureDone (getDirectorySize fsys).1 (getDirectorySize fsys).2 ::
          tail :=
  ⟨_, rfl⟩

/-! ## Helper lemmas for the key vault round trip -/

theorem chunk16_flatten : ∀ l : List Nat, (chunk16 l).flatten = l := by
  intro l
  induction l using chunk16.induct with
  | case1 => simp [chunk16]
  | case2 x xs ih => rw [chunk16, List.flatten_cons, ih, List.take_append_drop]

theorem chunk16_blocks_len : ∀ (l : List Nat), l.length % 16 = 0 →
    ∀ b ∈ chunk16 l, b.length = 16 := by
  intro l
  induction l using chunk16.induct with
  | case1 => simp [chunk16]
  | case2 x xs ih =>
      intro hlen b hb
      rw [chunk16] at hb
      rcases List.mem_cons.mp hb with hb | hb
      · subst hb
        rw [List.length_take]
        have : (x :: xs).length % 16 = 0 := hlen
        simp only [List.length_cons] at this ⊢
        omega
      · refine ih ?_ b hb
        rw [List.length_drop]
        simp only [List.length_cons]
        simp only [List.length_cons] at hlen
        omega

theorem chunk16_mem : ∀ (l : List Nat) (b : List Nat), b ∈ chunk16 l →
    ∀ x ∈ b, x ∈ l := by
  intro l
  induction l using chunk16.induct with
  | case1 => simp [chunk16]
  | case2 y ys ih =>
      intro b hb x hx
      rw [chunk16] at hb
      rcases List.mem_cons.mp hb with hb | hb
      · subst hb
        exact List.mem_of_mem_take hx
      · exact List.mem_of_mem_drop (ih b hb x hx)

theorem chunk16_of_flatten : ∀ (bs : List (List Nat)), (∀ b ∈ bs, b.length = 16) →
    chunk16 bs.flatten = bs := by
  intro bs
  induction bs with
  | nil => intro _; simp [chunk16]
  | cons b rest ih =>
      intro hlen
      have hb : b.length = 16 := hlen b (List.mem_cons_self b rest)
      obtain ⟨y, ys, hby⟩ : ∃ y ys, b = y :: ys := by
        cases b with
        | nil => simp at hb
        | cons y ys => exact ⟨y, ys, rfl⟩
      have hflat : (b :: rest).flatten = y :: (ys ++ rest.flatten) := by
        rw [List.flatten_cons, hby, List.cons_append]
      rw [hflat, chunk16, ← List.cons_append, ← hby]
      rw [List.take_left' hb, List.drop_left' hb]
      rw [ih fun x hx => hlen x (List.mem_cons_of_mem b hx)]


theorem xorBytes_cancel : ∀ (p iv : List Nat), p.length = iv.length →
    xorBytes (xorBytes p iv) iv = p := by
  intro p
  induction p with
  | nil => intro iv _; simp [xorBytes]
  | cons a p ih =>
      intro iv hlen
      cases iv with
      | nil => simp at hlen
      | cons b iv =>
          simp only [xorBytes, List.zipWith_cons_cons] at *
          rw [Nat.xor_cancel_right, ih iv (by simp only [List.length_cons] at hlen; omega)]

theorem xorBytes_length (a b : List Nat) : (xorBytes a b).length = min a.length b.length := by
  simp [xorBytes]

theorem xorBytes_lt : ∀ (a b : List Nat), (∀ x ∈ a, x < 256) → (∀ x ∈ b, x < 256) →
    ∀ x ∈ xorBytes a b, x < 256 := by
  intro a
  induction a with
  | nil => intro b h1 h2 x hx; simp [xorBytes] at hx
  | cons a0 a ih =>
      intro b ha hb x hx
      cases b with
      | nil => simp [xorBytes] at hx
      | cons b0 b =>
          simp only [xorBytes, List.zipWith_cons_cons, List.mem_cons] at hx
          rcases hx with hx | hx
          · subst hx
            have h1 : a0 < 2 ^ 8 := ha a0 (by simp)
            have h2 : b0 < 2 ^ 8 := hb b0 (by simp)
            exact Nat.xor_lt_two_pow h1 h2
          · exact ih b (fun y hy => ha y (by simp [hy])) (fun y hy => hb y (by simp [hy])) x hx



theorem cbc_roundtrip (E D : List Nat → List Nat)
    (hED : ∀ b, b.length = 16 → D (E b) = b)
    (hElen : ∀ b, b.length = 16 → (E b).length = 16) :
    ∀ (ps : List (List Nat)) (iv : List Nat), (∀ p ∈ ps, p.length = 16) →
      iv.length = 16 →
      cbcDecryptBlocks D iv (cbcEncryptBlocks E iv ps) = ps := by
  intro ps
  induction ps with
  | nil => intro iv _ _; rfl
  | cons p ps ih =>
      intro iv hps hiv
      have hp : p.length = 16 := hps p (List.mem_cons_self p ps)
      have hxlen : (xorBytes p iv).length = 16 := by
        rw [xorBytes_length, hp, hiv]; rfl
      simp only [cbcEncryptBlocks, cbcDecryptBlocks]
      rw [hED _ hxlen, xorBytes_cancel p iv (hp.trans hiv.symm)]
      rw [ih (E (xorBytes p iv)) (fun q hq => hps q (List.mem_cons_of_mem p hq))
        (hElen _ hxlen)]

theorem cbcEnc_length (E : List Nat → List Nat) :
    ∀ (ps : List (List Nat)) (iv : List Nat),
      (cbcEncryptBlocks E iv ps).length = ps.length := by
  intro ps
  induction ps with
  | nil => intro iv; rfl
  | cons p ps ih => intro iv; simp only [cbcEncryptBlocks, List.length_cons, ih]

theorem cbcEnc_blocks_len (E : List Nat → List Nat)
    (hElen : ∀ b, b.length = 16 → (E b).length = 16) :
    ∀ (ps : List (List Nat)) (iv : List Nat), (∀ p ∈ ps, p.length = 16) →
      iv.length = 16 → ∀ b ∈ cbcEncryptBlocks E iv ps, b.length = 16 := by
  intro ps
  induction ps with
  | nil => intro iv _ _ b hb; simp [cbcEncryptBlocks] at hb
  | cons p ps ih =>
      intro iv hps hiv b hb
      have hp : p.length = 16 := hps p (List.mem_cons_self p ps)
      have hxlen : (xorBytes p iv).length = 16 := by
        rw [xorBytes_length, hp, hiv]; rfl
      simp only [cbcEncryptBlocks, List.mem_cons] at hb
      rcases hb with hb | hb
      · subst hb; exact hElen _ hxlen
      · exact ih (E (xorBytes p iv))
          (fun q hq => hps q (List.mem_cons_of_mem p hq)) (hElen _ hxlen) b hb

theorem cbcEnc_blocks_bytes (E : List Nat → List Nat)
    (hEbyte : ∀ b, (∀ x ∈ b, x < 256) → ∀ x ∈ E b, x < 256) :
    ∀ (ps : List (List Nat)) (iv : List Nat),
      (∀ p ∈ ps, ∀ x ∈ p, x < 256) → (∀ x ∈ iv, x < 256) →
      ∀ b ∈ cbcEncryptBlocks E iv ps, ∀ x ∈ b, x < 256 := by
  intro ps
  induction ps with
  | nil => intro iv _ _ b hb; simp [cbcEncryptBlocks] at hb
  | cons p ps ih =>
      intro iv hps hiv b hb
      have hx : ∀ x ∈ xorBytes p iv, x < 256 :=
        xorBytes_lt p iv (hps p (List.mem_cons_self p ps)) hiv
      have hc : ∀ x ∈ E (xorBytes p iv), x < 256 := hEbyte _ hx
      simp only [cbcEncryptBlocks, List.mem_cons] at hb
      rcases hb with hb | hb
      · subst hb; exact hc
      · exact ih (E (xorBytes p iv))
          (fun q hq => hps q (List.mem_cons_of_mem p hq)) hc b hb

theorem flatten_length16 : ∀ (bs : List (List Nat)), (∀ b ∈ bs, b.length = 16) →
    bs.flatten.length = 16 * bs.length := by
  intro bs
  induction bs with
  | nil => intro _; rfl
  | cons b rest ih =>
      intro h
      rw [List.flatten_cons, List.length_append, h b (List.mem_cons_self b rest),
        ih fun q hq => h q (List.mem_cons_of_mem b hq), List.length_cons]
      ring



theorem pkcs7pad_length (bs : List Nat) :
    (pkcs7pad bs).length = bs.length + (16 - bs.length % 16) := by
  simp [pkcs7pad]

theorem pkcs7pad_length_mod (bs : List Nat) : (pkcs7pad bs).length % 16 = 0 := by
  rw [pkcs7pad_length]; omega

theorem pkcs7pad_length_pos (bs : List Nat) : (pkcs7pad bs).length ≠ 0 := by
  rw [pkcs7pad_length]; omega

theorem pkcs7pad_bytes (bs : List Nat) (h : ∀ x ∈ bs, x < 256) :
    ∀ x ∈ pkcs7pad bs, x < 256 := by
  intro x hx
  rcases List.mem_append.mp hx with hx | hx
  · exact h x hx
  · have h2 := (List.mem_replicate.mp hx).2
    omega

theorem pkcs7unpad_pad (bs : List Nat) : pkcs7unpad (pkcs7pad bs) = some bs := by
  have hmod : bs.length % 16 < 16 := Nat.mod_lt _ (by norm_num)
  set r := 16 - bs.length % 16 with hr
  have hr1 : 1 ≤ r := by omega
  have hr16 : r ≤ 16 := by omega
  obtain ⟨r0, hr0⟩ : ∃ r0, r = r0 + 1 := ⟨r - 1, by omega⟩
  have hrep : List.replicate r r = List.replicate r0 r ++ [r] := by
    have := List.replicate_succ' r0 r
    rw [← hr0] at this
    exact this
  have hpad : pkcs7pad bs = (bs ++ List.replicate r0 r) ++ [r] := by
    rw [pkcs7pad, ← hr, hrep, List.append_assoc]
  have hlast : (pkcs7pad bs).getLast? = some r := by
    rw [hpad]; exact List.getLast?_concat _
  have hL : (pkcs7pad bs).length = bs.length + r := pkcs7pad_length bs
  have hLr : (pkcs7pad bs).length - r = bs.length := by omega
  have hdrop : (pkcs7pad bs).drop ((pkcs7pad bs).length - r) = List.replicate r r := by
    rw [hLr, pkcs7pad, ← hr]
    have := List.drop_left bs (List.replicate r r)
    exact this
  have hall : ∀ x ∈ (pkcs7pad bs).drop ((pkcs7pad bs).length - r), x = r := by
    rw [hdrop]
    intro x hx
    exact (List.mem_replicate.mp hx).2
  have htake : (pkcs7pad bs).take ((pkcs7pad bs).length - r) = bs := by
    rw [hLr, pkcs7pad, ← hr]
    exact List.take_left bs _
  rw [pkcs7unpad]
  rw [hlast]
  change (if 1 ≤ r ∧ r ≤ 16 ∧ r ≤ (pkcs7pad bs).length ∧
      ∀ x ∈ List.drop ((pkcs7pad bs).length - r) (pkcs7pad bs), x = r then
    some (List.take ((pkcs7pad bs).length - r) (pkcs7pad bs)) else none) = some bs
  rw [if_pos ⟨hr1, hr16, by omega, hall⟩]
  rw [htake]







theorem b58_digit_one : b58DecodeDigit '1' = some 0 := by decide

theorem b58_digit_roundtrip : ∀ d : Nat, d < 58 →
    b58DecodeDigit (b58EncodeDigit d) = some d := by decide

theorem decodeDigits_replicate_one : ∀ (z : Nat) (l : List Char),
    decodeDigits (List.replicate z '1' ++ l) =
      (decodeDigits l).map fun ds => List.replicate z 0 ++ ds := by
  intro z
  induction z with
  | zero =>
      intro l
      simp
  | succ z ih =>
      intro l
      rw [List.replicate_succ, List.cons_append, decodeDigits, b58_digit_one, ih]
      cases h : decodeDigits l with
      | none => rfl
      | some ds => simp [List.replicate_succ]

theorem decodeDigits_map_encode : ∀ (l : List Nat), (∀ d ∈ l, d < 58) →
    decodeDigits (l.map b58EncodeDigit) = some l := by
  intro l
  induction l with
  | nil => intro _; rfl
  | cons d l ih =>
      intro h
      rw [List.map_cons, decodeDigits,
        b58_digit_roundtrip d (h d (List.mem_cons_self d l)),
        ih fun q hq => h q (List.mem_cons_of_mem d hq)]

theorem takeWhile_replicate_zero_append : ∀ (z : Nat) (rest : List Nat),
    (List.replicate z 0 ++ rest).takeWhile (· == 0) =
      List.replicate z 0 ++ rest.takeWhile (· == 0) := by
  intro z
  induction z with
  | zero => intro rest; simp
  | succ z ih =>
      intro rest
      rw [List.replicate_succ, List.cons_append, List.takeWhile_cons]
      simp only [beq_self_eq_true, if_true]
      rw [ih]
      simp [List.replicate_succ]

theorem takeWhile_zero_replicate : ∀ (bs : List Nat),
    bs.takeWhile (· == 0) = List.replicate (bs.takeWhile (· == 0)).length 0 := by
  intro bs
  induction bs with
  | nil => rfl
  | cons b bs ih =>
      rw [List.takeWhile_cons]
      by_cases h : b = 0
      · subst h
        simp only [beq_self_eq_true, if_true, List.length_cons, List.replicate_succ]
        rw [← ih]
      · have hb : (b == 0) = false := by simpa using h
        rw [hb]
        simp

theorem dropWhile_head_false {α : Type} (p : α → Bool) :
    ∀ (l : List α) (x : α) (xs : List α), l.dropWhile p = x :: xs → p x = false := by
  intro l
  induction l with
  | nil => intro x xs h; simp [List.dropWhile] at h
  | cons a l ih =>
      intro x xs h
      rw [List.dropWhile_cons] at h
      by_cases hp : p a = true
      · rw [if_pos hp] at h; exact ih x xs h
      · rw [if_neg hp] at h
        injection h with h1 h2
        subst h1
        simpa using hp

theorem ofDigits_replicate_zero : ∀ (b z : Nat),
    Nat.ofDigits b (List.replicate z 0) = 0 := by
  intro b z
  induction z with
  | zero => rfl
  | succ z ih =>
      rw [List.replicate_succ, Nat.ofDigits_cons, ih]
      simp

theorem takeWhile_reverse_digits (b n : Nat) :
    ((Nat.digits b n).reverse).takeWhile (· == 0) = [] := by
  rcases Nat.eq_zero_or_pos n with h0 | hpos
  · subst h0; simp
  · have hne : Nat.digits b n ≠ [] := Nat.digits_ne_nil_iff_ne_zero.mpr (by omega)
    have hlast : (Nat.digits b n).getLast hne ≠ 0 :=
      Nat.getLast_digit_ne_zero b (by omega)
    rw [← List.dropLast_append_getLast hne, List.reverse_append,
      List.reverse_singleton, List.singleton_append, List.takeWhile_cons]
    have hb : ((Nat.digits b n).getLast hne == 0) = false := by simpa using hlast
    rw [hb]
    simp

theorem base58_roundtrip (bs : List Nat) (h : ∀ x ∈ bs, x < 256) :
    base58decode (base58encode bs) = some bs := by
  set z := (bs.takeWhile (· == 0)).length with hz
  set dw := bs.dropWhile (· == 0) with hdw
  have htw : bs.takeWhile (· == 0) = List.replicate z 0 := takeWhile_zero_replicate bs
  have hbs : List.replicate z 0 ++ dw = bs := by
    rw [← htw, hdw]
    exact List.takeWhile_append_dropWhile _ _
  set n := Nat.ofDigits 256 bs.reverse with hn
  have hval : n = Nat.ofDigits 256 dw.reverse := by
    rw [hn, ← hbs, List.reverse_append, List.reverse_replicate, Nat.ofDigits_append,
      ofDigits_replicate_zero]
    simp
  have hd58 : ∀ d ∈ (Nat.digits 58 n).reverse, d < 58 := fun d hd =>
    Nat.digits_lt_base (by norm_num) (List.mem_reverse.mp hd)
  have hdec : decodeDigits (base58encode bs) =
      some (List.replicate z 0 ++ (Nat.digits 58 n).reverse) := by
    rw [base58encode, ← hz, ← hn, decodeDigits_replicate_one,
      decodeDigits_map_encode _ hd58]
    rfl
  rw [base58decode, hdec]
  simp only [Option.map_some', Option.some.injEq]
  have htw2 : ((List.replicate z 0 ++ (Nat.digits 58 n).reverse).takeWhile
      (· == 0)).length = z := by
    rw [takeWhile_replicate_zero_append, takeWhile_reverse_digits]
    simp
  have hrev : (List.replicate z 0 ++ (Nat.digits 58 n).reverse).reverse =
      Nat.digits 58 n ++ List.replicate z 0 := by
    rw [List.reverse_append, List.reverse_reverse, List.reverse_replicate]
  have hval2 : Nat.ofDigits 58
      ((List.replicate z 0 ++ (Nat.digits 58 n).reverse).reverse) = n := by
    rw [hrev, Nat.ofDigits_append, Nat.ofDigits_digits, ofDigits_replicate_zero]
    simp
  have hdig : Nat.digits 256 n = dw.reverse := by
    rw [hval]
    refine Nat.digits_ofDigits 256 (by norm_num) dw.reverse ?_ ?_
    · intro x hx
      refine h x ?_
      rw [← hbs]
      exact List.mem_append_right _ (List.mem_reverse.mp hx)
    · intro hne
      obtain ⟨d0, dtl, hd0⟩ : ∃ d0 dtl, dw = d0 :: dtl := by
        cases hcase : dw with
        | nil => rw [hcase] at hne; simp at hne
        | cons d0 dtl => exact ⟨d0, dtl, rfl⟩
      have hp : (d0 == 0) = false := dropWhile_head_false _ bs d0 dtl (by rw [← hdw, hd0])
      have hd0ne : d0 ≠ 0 := by simpa using hp
      have hlq : dw.reverse.getLast? = some d0 := by
        rw [hd0, List.reverse_cons]
        exact List.getLast?_concat _
      rw [List.getLast?_eq_getLast _ hne] at hlq
      injection hlq with hlq2
      rw [hlq2]
      exact hd0ne
  rw [htw2, hval2, hdig, List.reverse_reverse]
  exact hbs

/-! ## Claims about the telemetry tick -/

/-- C1 counterexample: a bandwidth sample whose age is exactly the
25-hour window (timestamp 0, tick at now = hours25) is treated as fresh
by the tick: needstest is false and no speed test is started, refuting
the claim that age exactly equal to the threshold is stale and triggers
a refresh. -/
theorem C1_boundary_counterexample :
    needsTest (CacheState.parsed ⟨100, 200, 0⟩) hours25 = some false ∧
    Event.speedTestStart ∉
      reportTrace (CacheState.parsed ⟨100, 200, 0⟩) hours25
        (Except.ok ⟨1, 2⟩) cfgX (FSNode.file 0) "c" true := by decide

/-- C1 amended: staleness is strict (age > hours25, the boundary itself
is fresh): a sample of age exactly hours25, or hours25 minus one
millisecond, is fresh (needstest false, no speed test is started),
while a sample of age hours25 plus one millisecond is stale (needstest
true and the tick starts a speed test). -/
theorem C1_freshness_boundary_strict (s : BandwidthSample) (now : Int)
    (test : Except Unit SpeedResult) (cfg : Config) (fsys : FSNode)
    (c : String) (ok : Bool) :
    (now - s.timestamp = hours25 →
      needsTest (CacheState.parsed s) now = some false ∧
      Event.speedTestStart ∉
        reportTrace (CacheState.parsed s) now test cfg fsys c ok) ∧
    (now - s.timestamp = hours25 - 1 →
      needsTest (CacheState.parsed s) now = some false) ∧
    (now - s.timestamp = hours25 + 1 →
      needsTest (CacheState.parsed s) now = some true ∧
      Event.speedTestStart ∈
        reportTrace (CacheState.parsed s) now test cfg fsys c ok) := by
  refine ⟨fun h => ⟨?_, ?_⟩, fun h => ?_, fun h => ⟨?_, ?_⟩⟩
  · have hd : decide (now - s.timestamp > hours25) = false := by
      simp only [decide_eq_false_iff_not, not_lt]; omega
    simp [needsTest, hd]
  · have hd : decide (now - s.timestamp > hours25) = false := by
      simp only [decide_eq_false_iff_not, not_lt]; omega
    simp only [reportTrace, needsTest, hd, Bool.false_and, Bool.false_eq_true,
      if_false, cacheSample]
    exact speedTestStart_not_mem_sendTrace cfg fsys (some s) c ok
  · have hd : decide (now - s.timestamp > hours25) = false := by
      simp only [decide_eq_false_iff_not, not_lt]; omega
    simp [needsTest, hd]
  · have hd : decide (now - s.timestamp > hours25) = true := by
      simp only [decide_eq_true_eq]; omega
    simp [needsTest, hd]
  · have hd : decide (now - s.timestamp > hours25) = true := by
      simp only [decide_eq_true_eq]; omega
    simp [reportTrace, needsTest, hd, speedtest_url_nonempty]

/-- C1 witness: the amended boundary theorem applied at concrete
inputs: a sample of age exactly hours25 is fresh, one of age
hours25 + 1 is stale. -/
theorem C1_freshness_boundary_strict_witness :
    needsTest (CacheState.parsed ⟨100, 200, 0⟩) hours25 = some false ∧
    needsTest (CacheState.parsed ⟨100, 200, 0⟩) (hours25 + 1) = some true :=
  ⟨((C1_freshness_boundary_strict ⟨100, 200, 0⟩ hours25 (Except.ok ⟨1, 2⟩)
      cfgX (FSNode.file 0) "c" true).1 (by decide)).1,
   ((C1_freshness_boundary_strict ⟨100, 200, 0⟩ (hours25 + 1) (Except.ok ⟨1, 2⟩)
      cfgX (FSNode.file 0) "c" true).2.2 (by decide)).1⟩

/-- C2 counterexample: a tick with a missing cache file whose speed test
fails emits only the speed-test error log and never registers the
5-minute timer, refuting the claim that every tick schedules a next
tick regardless of outcome. -/
theorem C2_failed_speedtest_counterexample :
    Event.scheduleNext ∉
      reportTrace CacheState.missing 0 (Except.error ()) cfgX (FSNode.file 0)
        "c" true := by decide

/-- C2 amended: the next tick is scheduled exactly when the tick reaches
send(): either the cached sample is fresh (needstest false), or a test
was needed and the speed test succeeded.  In particular a tick whose
speed test fails schedules no next tick (the loop terminates there),
while measurement and delivery failures inside send() still schedule
it. -/
theorem C2_reschedule_iff_send_runs (cache : CacheState) (now : Int)
    (test : Except Unit SpeedResult) (cfg : Config) (fsys : FSNode)
    (c : String) (ok : Bool) :
    Event.scheduleNext ∈ reportTrace cache now test cfg fsys c ok ↔
      (needsTest cache now = some false ∨
        (needsTest cache now = some true ∧ ∃ res, test = Except.ok res)) := by
  rcases hnt : needsTest cache now with _ | nt
  · simp [reportTrace, hnt]
  · cases nt
    · simp [reportTrace, hnt, scheduleNext_mem_sendTrace]
    · cases test with
      | error e => simp [reportTrace, hnt, speedtest_url_nonempty]
      | ok res =>
          simp [reportTrace, hnt, speedtest_url_nonempty,
            scheduleNext_mem_sendTrace]

/-- C3 counterexample: a readable root directory (stat size 4096) with
a readable file child and a second child whose stat fails: the walk
does not skip the bad descendant; it hands the root callback a truthy
error (together with the partial total 4096), so the measurement fails
even though the root itself is accessible. -/
theorem C3_descendant_error_counterexample :
    getDirectorySize
        (FSNode.dir 4096
          (FSEntries.cons (FSNode.file 100)
            (FSEntries.cons FSNode.statErr FSEntries.nil))) =
      (true, some 4096) := by decide

/-- C3 amended: inaccessible descendants are not skipped:
getDirectorySize hands its callback an error exactly when some node of
the tree, root or proper descendant, fails stat or readdir, not only
when the root path is inaccessible. -/
theorem C3_error_iff_bad_node (f : FSNode) :
    (getDirectorySize f).1 = true ↔ hasErr f = true := by
  rw [gds_err]

/-- C4 counterexample: with a nonexistent measurement root a tick with a
fresh cached sample produces only measureStart, scheduleNext and an
erring measureDone: no report is built or delivered, refuting the claim
that the measurement yields plain 0 and a report with used size 0 is
still attempted. -/
theorem C4_missing_root_counterexample :
    reportTrace (CacheState.parsed ⟨1, 2, 0⟩) 0 (Except.ok ⟨1, 2⟩) cfgX
        FSNode.statErr "c" true =
      [Event.measureStart, Event.scheduleNext,
       Event.measureDone true (some 0)] := by decide

/-- C4 amended: a nonexistent or inaccessible root makes
getDirectorySize call back with the error and size 0, and the early
return in send() then suppresses the report: no tick against such a
root ever calls the delivery transport; the 5-minute timer is
nevertheless still registered whenever send() runs at all. -/
theorem C4_missing_root_no_report (cache : CacheState) (now : Int)
    (test : Except Unit SpeedResult) (cfg : Config) (c : String) (ok : Bool) :
    getDirectorySize FSNode.statErr = (true, some 0) ∧
    (reportTrace cache now test cfg FSNode.statErr c ok).any isDeliver =
      false ∧
    (needsTest cache now = some false →
      Event.scheduleNext ∈
        reportTrace cache now test cfg FSNode.statErr c ok) := by
  refine ⟨rfl, ?_, fun h => ?_⟩
  · rcases hnt : needsTest cache now with _ | nt
    · simp [reportTrace, hnt, isDeliver]
    · cases nt
      · simp [reportTrace, hnt, sendTrace_shape, isDeliver, getDirectorySize]
      · cases test with
        | error e => simp [reportTrace, hnt, speedtest_url_nonempty, isDeliver]
        | ok res =>
            simp [reportTrace, hnt, speedtest_url_nonempty, sendTrace_shape,
              isDeliver, getDirectorySize]
  · simp [reportTrace, h, scheduleNext_mem_sendTrace]

/-- C4 witness: the amended theorem applied at a fresh cached sample:
the timer is still registered although the root is missing. -/
theorem C4_missing_root_no_report_witness :
    Event.scheduleNext ∈
      reportTrace (CacheState.parsed ⟨1, 2, 0⟩) 0 (Except.ok ⟨1, 2⟩) cfgX
        FSNode.statErr "c" true :=
  (C4_missing_root_no_report _ _ _ _ _ _).2.2 (by decide)

/-- C5 counterexample: with identical surrounding inputs, an unparsable
cache file makes the tick die in JSON.parse (its trace is only the
parse exception, no speed test is started), while a missing cache file
starts a speed test: the two cases are not treated identically and the
unparsable case does not proceed to a refresh. -/
theorem C5_unparsable_cache_counterexample :
    reportTrace CacheState.unparsable 0 (Except.ok ⟨1, 2⟩) cfgX
        (FSNode.file 0) "c" true = [Event.parseThrow] ∧
    Event.speedTestStart ∈
      reportTrace CacheState.missing 0 (Except.ok ⟨1, 2⟩) cfgX
        (FSNode.file 0) "c" true := by decide

/-- C5 amended: a missing cache file and one with empty (falsy) content
are treated identically, as stale with no sample: the tick proceeds to
a speed test.  A cache file with unparsable non-empty content instead
aborts the tick with the JSON.parse exception: no speed test, no
report, and no next tick is scheduled. -/
theorem C5_unparsable_cache_aborts (now : Int) (test : Except Unit SpeedResult)
    (cfg : Config) (fsys : FSNode) (c : String) (ok : Bool) :
    reportTrace CacheState.unparsable now test cfg fsys c ok =
      [Event.parseThrow] ∧
    reportTrace CacheState.missing now test cfg fsys c ok =
      reportTrace CacheState.empty now test cfg fsys c ok ∧
    Event.speedTestStart ∈
      reportTrace CacheState.missing now test cfg fsys c ok ∧
    Event.scheduleNext ∉
      reportTrace CacheState.unparsable now test cfg fsys c ok := by
  refine ⟨rfl, rfl, ?_, by simp [reportTrace, needsTest]⟩
  simp [reportTrace, needsTest, speedtest_url_nonempty]

/-- C8: for every configured capacity n, the conversion of the tick
uses binary multiples of 1024: n MB converts to n * 1024 ^ 2 bytes,
n GB to n * 1024 ^ 3 and n TB to n * 1024 ^ 4 exactly; in particular
capacity 2 with unit GB gives 2 * 1024 ^ 3 and capacity 1 with unit TB
gives 1024 ^ 4. -/
theorem C8_unit_conversion_binary (n : Nat) :
    totalSpaceBytes n StorageUnit.MB = n * 1024 ^ 2 ∧
    totalSpaceBytes n StorageUnit.GB = n * 1024 ^ 3 ∧
    totalSpaceBytes n StorageUnit.TB = n * 1024 ^ 4 ∧
    totalSpaceBytes 2 StorageUnit.GB = 2 * 1024 ^ 3 ∧
    totalSpaceBytes 1 StorageUnit.TB = 1024 ^ 4 :=
  ⟨rfl, rfl, rfl, rfl, one_mul _⟩

/-- C9 counterexample: in the concrete fresh-cache tick below, the
timer registration (scheduleNext) strictly precedes the completion of
the storage measurement (measureDone) in the trace, refuting the claim
that the timer for the next tick is started only after the current
tick's measurement and send attempt have completed. -/
theorem C9_timer_before_measurement_counterexample :
    (reportTrace (CacheState.parsed ⟨1, 2, 0⟩) 0 (Except.ok ⟨1, 2⟩) cfgX
        (FSNode.file 0) "c" true).indexOf Event.scheduleNext <
    (reportTrace (CacheState.parsed ⟨1, 2, 0⟩) 0 (Except.ok ⟨1, 2⟩) cfgX
        (FSNode.file 0) "c" true).indexOf
          (Event.measureDone false (some 0)) := by decide

/-- C9 amended: whenever a tick registers the next-tick timer at all,
it does so synchronously at the start of send(), immediately after the
storage measurement is initiated and before that measurement completes
(hence before any delivery): the trace decomposes around the
consecutive events measureStart, scheduleNext, measureDone.  Only the
bandwidth-freshness resolution precedes the timer registration; ticks
slower than 5 minutes would therefore overlap with the next tick. -/
theorem C9_timer_set_before_measurement (cache : CacheState) (now : Int)
    (test : Except Unit SpeedResult) (cfg : Config) (fsys : FSNode)
    (c : String) (ok : Bool)
    (h : Event.scheduleNext ∈ reportTrace cache now test cfg fsys c ok) :
    ∃ pre tail, reportTrace cache now test cfg fsys c ok =
      pre ++ Event.measureStart :: Event.scheduleNext ::
        Event.measureDone (getDirectorySize fsys).1
          (getDirectorySize fsys).2 :: tail := by
  rcases hnt : needsTest cache now with _ | nt
  · simp [reportTrace, hnt] at h
  · cases nt
    · obtain ⟨tail, ht⟩ := sendTrace_decomp cfg fsys (cacheSample cache) c ok
      exact ⟨[], tail, by simp [reportTrace, hnt, ht]⟩
    · cases test with
      | error e => simp [reportTrace, hnt, speedtest_url_nonempty] at h
      | ok res =>
          obtain ⟨tail, ht⟩ := sendTrace_decomp cfg fsys
            (some ⟨res.upload, res.download, now⟩) c ok
          exact ⟨[Event.speedTestStart,
                  Event.cacheWrite ⟨res.upload, res.download, now⟩], tail,
            by simp [reportTrace, hnt, speedtest_url_nonempty, ht]⟩

/-- C9 witness: the amended theorem applied to a concrete fresh-cache
tick. -/
theorem C9_timer_set_before_measurement_witness :
    ∃ pre tail,
      reportTrace (CacheState.parsed ⟨1, 2, 0⟩) 0 (Except.ok ⟨1, 2⟩) cfgX
          (FSNode.file 0) "c" true =
        pre ++ Event.measureStart :: Event.scheduleNext ::
          Event.measureDone (getDirectorySize (FSNode.file 0)).1
            (getDirectorySize (FSNode.file 0)).2 :: tail :=
  C9_timer_set_before_measurement _ _ _ _ _ _ _ (by decide)

/-- C10: every report handed to the delivery transport carries in
storage.free the raw configured storage.size number, and for a nonzero
capacity with a recognised unit this is never the byte-converted
totalSpace value of the MB/GB/TB switch: the conversion result is never
written into the report object. -/
theorem C10_report_free_is_raw_size (cache : CacheState) (now : Int)
    (test : Except Unit SpeedResult) (cfg : Config) (fsys : FSNode)
    (c : String) (ok : Bool) (r : TelemetryReport)
    (h : Event.deliver r ∈ reportTrace cache now test cfg fsys c ok) :
    r.storage.free = cfg.storage.size ∧
    (0 < cfg.storage.size → cfg.storage.unit ≠ StorageUnit.other →
      r.storage.free ≠ totalSpaceBytes cfg.storage.size cfg.storage.unit) := by
  have hr : r.storage.free = cfg.storage.size := by
    rcases hnt : needsTest cache now with _ | nt
    · simp [reportTrace, hnt] at h
    · cases nt
      · simp only [reportTrace, hnt, Bool.false_and, Bool.false_eq_true,
          if_false] at h
        rw [deliver_mem_sendTrace h]; rfl
      · cases test with
        | error e =>
            simp [reportTrace, hnt, speedtest_url_nonempty] at h
        | ok res =>
            simp only [reportTrace, hnt, speedtest_url_nonempty,
              Bool.true_and, if_true, List.mem_cons] at h
            rcases h with h | h | h
            · exact absurd h (by simp)
            · exact absurd h (by simp)
            · rw [deliver_mem_sendTrace h]; rfl
  refine ⟨hr, fun hpos hunit => ?_⟩
  rw [hr]
  cases hu : cfg.storage.unit
  · norm_num [totalSpaceBytes]; omega
  · norm_num [totalSpaceBytes]; omega
  · norm_num [totalSpaceBytes]; omega
  · exact absurd hu hunit

/-- C10 witness: a concrete delivered report of the 2 GB sample
configuration: its free field is the raw 2, not 2 * 1024 ^ 3. -/
theorem C10_report_free_is_raw_size_witness :
    (buildReport cfgX (some 0) (some ⟨1, 2, 0⟩) "c").storage.free =
      cfgX.storage.size ∧
    (buildReport cfgX (some 0) (some ⟨1, 2, 0⟩) "c").storage.free ≠
      totalSpaceBytes cfgX.storage.size cfgX.storage.unit := by
  have h := C10_report_free_is_raw_size (CacheState.parsed ⟨1, 2, 0⟩) 0
    (Except.ok ⟨1, 2⟩) cfgX (FSNode.file 0) "c" true
    (buildReport cfgX (some 0) (some ⟨1, 2, 0⟩) "c") (by decide)
  exact ⟨h.1, h.2 (by decide) (by decide)⟩

/-- C6: for every password P and plaintext S, decrypt(P, encrypt(P, S))
returns exactly S: the encrypt/decrypt pair is a round trip through the
base58-encoded AES blob.  The AES-256 block permutation and the key
derivation performed by crypto.createCipher are external primitives, so
the theorem quantifies over any password-indexed block transform family
Ek / Dk and derived initialisation vector ivd having the defining
properties of a block cipher (16-byte blocks of bytes, Dk inverting
Ek); the PKCS#7 padding, the CBC chaining, the buffer concatenation and
the base58 codec are the concrete models defined above.  Plaintexts
range over byte lists (the utf8 bytes of the JavaScript string). -/
theorem C6_encrypt_decrypt_roundtrip (Ek Dk : String → List Nat → List Nat)
    (ivd : String → List Nat)
    (hIVlen : ∀ pw, (ivd pw).length = 16)
    (hIVbyte : ∀ pw, ∀ x ∈ ivd pw, x < 256)
    (hElen : ∀ pw b, b.length = 16 → (Ek pw b).length = 16)
    (hEbyte : ∀ pw b, (∀ x ∈ b, x < 256) → ∀ x ∈ Ek pw b, x < 256)
    (hDE : ∀ pw b, b.length = 16 → Dk pw (Ek pw b) = b)
    (password : String) (s : List Nat) (hs : ∀ x ∈ s, x < 256) :
    decrypt Dk ivd password (encrypt Ek ivd password s) = some s := by
  set ps := chunk16 (pkcs7pad s) with hps
  have hps16 : ∀ p ∈ ps, p.length = 16 :=
    chunk16_blocks_len _ (pkcs7pad_length_mod s)
  have hpsbytes : ∀ p ∈ ps, ∀ x ∈ p, x < 256 := fun p hp x hx =>
    pkcs7pad_bytes s hs x (chunk16_mem _ p hp x hx)
  set cs := cbcEncryptBlocks (Ek password) (ivd password) ps with hcs
  have hcs16 : ∀ b ∈ cs, b.length = 16 :=
    cbcEnc_blocks_len _ (hElen password) ps _ hps16 (hIVlen password)
  have hcsbytes : ∀ x ∈ cs.flatten, x < 256 := by
    intro x hx
    obtain ⟨b, hb, hxb⟩ := List.mem_flatten.mp hx
    exact cbcEnc_blocks_bytes _ (hEbyte password) ps _ hpsbytes
      (hIVbyte password) b hb x hxb
  have hflatlen : cs.flatten.length = 16 * cs.length := flatten_length16 cs hcs16
  have hcslen : cs.length = ps.length := cbcEnc_length _ ps _
  have hpsne : ps ≠ [] := by
    intro hc
    have := congrArg List.flatten (hps.symm.trans hc)
    rw [chunk16_flatten] at this
    exact pkcs7pad_length_pos s (by rw [this]; rfl)
  have hcsposlen : cs.length ≠ 0 := by
    rw [hcslen]
    intro hc
    exact hpsne (List.length_eq_zero.mp hc)
  have hdata : (encrypt Ek ivd password s).data = base58encode cs.flatten := rfl
  rw [decrypt, hdata, base58_roundtrip _ hcsbytes]
  change (if cs.flatten.length % 16 = 0 ∧ cs.flatten.length ≠ 0 then
      pkcs7unpad (cbcDecryptBlocks (Dk password) (ivd password)
        (chunk16 cs.flatten)).flatten
    else none) = some s
  rw [if_pos ⟨by rw [hflatlen]; omega, by rw [hflatlen]; omega⟩]
  rw [chunk16_of_flatten cs hcs16]
  rw [hcs, cbc_roundtrip (Ek password) (Dk password) (hDE password)
    (hElen password) ps _ hps16 (hIVlen password)]
  rw [hps, chunk16_flatten]
  exact pkcs7unpad_pad s

/-- C6 witness: the round-trip theorem applied at a concrete input: an
identity block transform with a zero initialisation vector on the utf8
bytes [104, 105] of the plaintext "hi". -/
theorem C6_encrypt_decrypt_roundtrip_witness :
    decrypt (fun _ b => b) (fun _ => List.replicate 16 0) "pw"
        (encrypt (fun _ b => b) (fun _ => List.replicate 16 0) "pw"
          [104, 105]) = some [104, 105] :=
  C6_encrypt_decrypt_roundtrip (fun _ b => b) (fun _ b => b)
    (fun _ => List.replicate 16 0)
    (fun _ => rfl)
    (fun _ => by
      show ∀ x ∈ List.replicate 16 0, x < 256
      decide)
    (fun _ _ hb => hb)
    (fun _ _ hb => hb)
    (fun _ _ _ => rfl)
    "pw" [104, 105] (by decide)

end StorjFarmer
